import Mathlib

/-!
Shallow embedding of `src/cwe_checker_rs/src/bil/mod.rs`: the BIL expression
AST, the let-binding elimination pass, the bit-width inference function and
the lowering into the intermediate-representation expression language.

Modelling conventions:
* `BitSize` (Rust `u16`) and `ByteSize` (a `u64` newtype) are modelled as
  `Nat`; all widths appearing in the claims are far below the overflow
  bounds, and subtraction sites are only used under the documented
  invariants (`low_bit ≤ high_bit`, `width ≤ arg.bitsize()`), where `Nat`
  subtraction and `u16` subtraction agree.
* Rust panics (`panic!`, `unwrap`, failed `assert!`) are modelled by
  `Option`: `none` is a fatal abort, and aborts propagate, so no partial
  result is produced.
* In-place mutation (`&mut self`) is modelled by pure functions returning
  the rewritten tree.
-/

/-- Rust `pub type BitSize = u16;`, modelled as `Nat`. -/
abbrev BitSize := Nat

/-- The IR `ByteSize` newtype over `u64`, modelled as `Nat` (a byte count). -/
abbrev ByteSize := Nat

/-- Rust `impl From<BitSize> for ByteSize`: convert to `ByteSize`, while always
rounding up to the nearest full byte: `((bitsize as u64 + 7) / 8).into()`. -/
def ByteSize.from_bitsize (bitsize : BitSize) : ByteSize :=
  (bitsize + 7) / 8

/-- Modelled from the spec: the `Type` enum of `bil/variable.rs` (the file is
not in the sources; only its use sites are). A variable's declared type is a
fixed-width immediate or otherwise; only an immediate type carries a
resolvable bit-width. -/
inductive Type_ where
  | Immediate (bitsize : BitSize)
  | Other
deriving DecidableEq, Repr

/-- Modelled from the spec: `Type::bitsize` of `bil/variable.rs` resolves the
width of an immediate type and fails fatally otherwise (`none`). -/
def Type_.bitsize : Type_ → Option BitSize
  | .Immediate n => some n
  | .Other => none

/-- The `Variable` struct of `bil/variable.rs`; its field layout
`{name, type_, is_temp}` is visible in the test module of `bil/mod.rs` and
in the spec's data model. -/
structure Variable where
  name : String
  type_ : Type_
  is_temp : Bool
deriving DecidableEq, Repr

/-- Modelled from the spec: `Variable::bitsize` of `bil/variable.rs` returns
the variable's declared width, failing fatally (`none`) when the declared
type carries no resolvable width. -/
def Variable.bitsize (v : Variable) : Option BitSize :=
  v.type_.bitsize

/-- Rust `pub type Bitvector = apint::ApInt;` — an arbitrary-width integer value,
stored (and serialized) as a little-endian array of 64-bit digits together
with an explicit bit-width. Treated as an opaque leaf value with structural
equality, exactly as the claims use it. -/
structure Bitvector where
  digits : List Nat
  width : BitSize
deriving DecidableEq, Repr

/-- The `Endianness` enum. -/
inductive Endianness where
  | LittleEndian
  | BigEndian
deriving DecidableEq, Repr

/-- The `CastType` enum. -/
inductive CastType where
  | UNSIGNED
  | SIGNED
  | HIGH
  | LOW
deriving DecidableEq, Repr

/-- The `BinOpType` enum (19 operators). -/
inductive BinOpType where
  | PLUS | MINUS | TIMES | DIVIDE | SDIVIDE | MOD | SMOD
  | LSHIFT | RSHIFT | ARSHIFT | AND | OR | XOR
  | EQ | NEQ | LT | LE | SLT | SLE
deriving DecidableEq, Repr

/-- The `UnOpType` enum. -/
inductive UnOpType where
  | NEG
  | NOT
deriving DecidableEq, Repr

/-- The `Expression` enum of `bil/mod.rs`, field for field. -/
inductive Expression where
  | Var (var : Variable)
  | Const (bitvector : Bitvector)
  | Load (memory : Expression) (address : Expression)
      (endian : Endianness) (size : BitSize)
  | Store (memory : Expression) (address : Expression) (value : Expression)
      (endian : Endianness) (size : BitSize)
  | BinOp (op : BinOpType) (lhs : Expression) (rhs : Expression)
  | UnOp (op : UnOpType) (arg : Expression)
  | Cast (kind : CastType) (width : BitSize) (arg : Expression)
  | Let (var : Variable) (bound_exp : Expression) (body_exp : Expression)
  | Unknown (description : String) (type_ : Type_)
  | IfThenElse (condition : Expression) (true_exp : Expression)
      (false_exp : Expression)
  | Extract (low_bit : BitSize) (high_bit : BitSize) (arg : Expression)
  | Concat (left : Expression) (right : Expression)
deriving DecidableEq, Repr

namespace Expression

/-- Source `Expression::substitute`: substitutes all subexpressions equal to
`to_replace` with the expression `replace_with`. The whole-subtree equality
test comes first, exactly as in the source; otherwise the function recurses
into every child (including both children of a `Let`). -/
def substitute (e to_replace replace_with : Expression) : Expression :=
  if e = to_replace then replace_with
  else
    match e with
    | Var v => Var v
    | Const c => Const c
    | Load m a en s =>
        Load (m.substitute to_replace replace_with)
          (a.substitute to_replace replace_with) en s
    | Store m a v en s =>
        Store (m.substitute to_replace replace_with)
          (a.substitute to_replace replace_with)
          (v.substitute to_replace replace_with) en s
    | BinOp op l r =>
        BinOp op (l.substitute to_replace replace_with)
          (r.substitute to_replace replace_with)
    | UnOp op a => UnOp op (a.substitute to_replace replace_with)
    | Cast k w a => Cast k w (a.substitute to_replace replace_with)
    | Let v b bo =>
        Let v (b.substitute to_replace replace_with)
          (bo.substitute to_replace replace_with)
    | Unknown d t => Unknown d t
    | IfThenElse c t f =>
        IfThenElse (c.substitute to_replace replace_with)
          (t.substitute to_replace replace_with)
          (f.substitute to_replace replace_with)
    | Extract lo hi a => Extract lo hi (a.substitute to_replace replace_with)
    | Concat l r =>
        Concat (l.substitute to_replace replace_with)
          (r.substitute to_replace replace_with)

/-- Source `Expression::replace_let_bindings`: resolve all let-bindings inside an
expression. On a `Let` node the source first eliminates lets in the body,
then substitutes `Var(var)` by `bound_exp` (as-is, without recursing into
`bound_exp`), and replaces the node by the rewritten body. -/
def replace_let_bindings : Expression → Expression
  | Var v => Var v
  | Const c => Const c
  | Load m a en s => Load m.replace_let_bindings a.replace_let_bindings en s
  | Store m a v en s =>
      Store m.replace_let_bindings a.replace_let_bindings
        v.replace_let_bindings en s
  | BinOp op l r => BinOp op l.replace_let_bindings r.replace_let_bindings
  | UnOp op a => UnOp op a.replace_let_bindings
  | Cast k w a => Cast k w a.replace_let_bindings
  | Let var bound_exp body_exp =>
      (body_exp.replace_let_bindings).substitute (Var var) bound_exp
  | Unknown d t => Unknown d t
  | IfThenElse c t f =>
      IfThenElse c.replace_let_bindings t.replace_let_bindings
        f.replace_let_bindings
  | Extract lo hi a => Extract lo hi a.replace_let_bindings
  | Concat l r => Concat l.replace_let_bindings r.replace_let_bindings

/-- Does a `Let` variant appear anywhere in the tree? (Specification-side
predicate used to state the structural invariants.) -/
def contains_let : Expression → Bool
  | Var _ => false
  | Const _ => false
  | Load m a _ _ => m.contains_let || a.contains_let
  | Store m a v _ _ => m.contains_let || a.contains_let || v.contains_let
  | BinOp _ l r => l.contains_let || r.contains_let
  | UnOp _ a => a.contains_let
  | Cast _ _ a => a.contains_let
  | Let _ _ _ => true
  | Unknown _ _ => false
  | IfThenElse c t f => c.contains_let || t.contains_let || f.contains_let
  | Extract _ _ a => a.contains_let
  | Concat l r => l.contains_let || r.contains_let

/-- Source `Expression::bitsize`. Fatal aborts (`panic!()` on `Let`, `unwrap()` on
a variable or unknown without resolvable width) are `none`; the `BinOp`
comparison arm returns 1 without inspecting either operand, and the other
arms only query the children the source queries. -/
def bitsize : Expression → Option BitSize
  | Var var => var.bitsize
  | Const bitvector => some bitvector.width
  | Load _ _ _ size => some size
  | Store _ _ _ _ _ => some 0
  | BinOp op lhs _ =>
      match op with
      | .EQ | .NEQ | .LT | .LE | .SLT | .SLE => some 1
      | _ => lhs.bitsize
  | UnOp _ arg => arg.bitsize
  | Cast _ width _ => some width
  | Let _ _ _ => none
  | Unknown _ type_ => type_.bitsize
  | IfThenElse _ true_exp _ => true_exp.bitsize
  | Extract low_bit high_bit _ => some (high_bit - low_bit)
  | Concat left right =>
      match left.bitsize, right.bitsize with
      | some l, some r => some (l + r)
      | _, _ => none

/-- Is the node, or any node inside it, one of the variants the lowering
transform declares unsupported (`Load`, `Store`, `Let`, `Unknown`,
`IfThenElse`)? (Specification-side predicate.) -/
def contains_unsupported : Expression → Bool
  | Var _ => false
  | Const _ => false
  | Load _ _ _ _ => true
  | Store _ _ _ _ _ => true
  | BinOp _ l r => l.contains_unsupported || r.contains_unsupported
  | UnOp _ a => a.contains_unsupported
  | Cast _ _ a => a.contains_unsupported
  | Let _ _ _ => true
  | Unknown _ _ => true
  | IfThenElse _ _ _ => true
  | Extract _ _ a => a.contains_unsupported
  | Concat l r => l.contains_unsupported || r.contains_unsupported

end Expression

/-- The target IR's `BinOpType` (from `intermediate_representation`, not in
the sources): the constructors named by the operator table of `bil/mod.rs`. -/
inductive IrBinOpType where
  | Piece
  | IntAdd | IntSub | IntMult | IntDiv | IntSDiv | IntRem | IntSRem
  | IntLeft | IntRight | IntSRight | IntAnd | IntOr | IntXOr
  | IntEqual | IntNotEqual | IntLess | IntLessEqual | IntSLess | IntSLessEqual
deriving DecidableEq, Repr

/-- The target IR's `UnOpType` constructors named in `bil/mod.rs`. -/
inductive IrUnOpType where
  | IntNegate
  | Int2Comp
deriving DecidableEq, Repr

/-- The target IR's `CastOpType` constructors named in `bil/mod.rs`. -/
inductive IrCastOpType where
  | IntZExt
  | IntSExt
deriving DecidableEq, Repr

/-- The target IR's `Expression` (from `intermediate_representation`, not in
the sources): the variants and fields used by the lowering in `bil/mod.rs`.
`size` and `low_byte` fields are `ByteSize`s. The IR variable is the source
variable carried through its 1:1 conversion. -/
inductive IrExpression where
  | Var (var : Variable)
  | Const (v : Bitvector)
  | BinOp (op : IrBinOpType) (lhs : IrExpression) (rhs : IrExpression)
  | UnOp (op : IrUnOpType) (arg : IrExpression)
  | Cast (op : IrCastOpType) (size : ByteSize) (arg : IrExpression)
  | Subpiece (low_byte : ByteSize) (size : ByteSize) (arg : IrExpression)
deriving DecidableEq, Repr

/-- Rust `impl From<BinOpType> for IrBinOpType`: the 19-entry operator table. -/
def BinOpType.into : BinOpType → IrBinOpType
  | .PLUS => .IntAdd
  | .MINUS => .IntSub
  | .TIMES => .IntMult
  | .DIVIDE => .IntDiv
  | .SDIVIDE => .IntSDiv
  | .MOD => .IntRem
  | .SMOD => .IntSRem
  | .LSHIFT => .IntLeft
  | .RSHIFT => .IntRight
  | .ARSHIFT => .IntSRight
  | .AND => .IntAnd
  | .OR => .IntOr
  | .XOR => .IntXOr
  | .EQ => .IntEqual
  | .NEQ => .IntNotEqual
  | .LT => .IntLess
  | .LE => .IntLessEqual
  | .SLT => .IntSLess
  | .SLE => .IntSLessEqual

/-- Rust `impl From<UnOpType> for IrUnOpType`: `NEG => Int2Comp`,
`NOT => IntNegate`. -/
def UnOpType.into : UnOpType → IrUnOpType
  | .NEG => .Int2Comp
  | .NOT => .IntNegate

/-- Rust `impl From<Expression> for IrExpression` (the lowering transform).
`none` models the fatal aborts: the `panic!()` on `Load`/`Store`/`Let`/
`Unknown`/`IfThenElse`, the `assert!(width % 8 == 0)` of the `HIGH` cast,
and any abort propagating from a recursive conversion or from
`arg.bitsize()`; an aborted conversion produces no output at all. -/
def IrExpression.from_expression : Expression → Option IrExpression
  | .Var var => some (.Var var)
  | .Const bitvector => some (.Const bitvector)
  | .Load _ _ _ _ => none
  | .Store _ _ _ _ _ => none
  | .Let _ _ _ => none
  | .Unknown _ _ => none
  | .IfThenElse _ _ _ => none
  | .BinOp op lhs rhs =>
      match from_expression lhs, from_expression rhs with
      | some l, some r => some (.BinOp op.into l r)
      | _, _ => none
  | .UnOp op arg =>
      match from_expression arg with
      | some a => some (.UnOp op.into a)
      | none => none
  | .Cast kind width arg =>
      match kind with
      | .UNSIGNED =>
          match from_expression arg with
          | some a => some (.Cast .IntZExt (ByteSize.from_bitsize width) a)
          | none => none
      | .SIGNED =>
          match from_expression arg with
          | some a => some (.Cast .IntSExt (ByteSize.from_bitsize width) a)
          | none => none
      | .HIGH =>
          if width % 8 = 0 then
            match arg.bitsize with
            | some ab =>
                match from_expression arg with
                | some a =>
                    some (.Subpiece (ByteSize.from_bitsize (ab - width))
                      (ByteSize.from_bitsize width) a)
                | none => none
            | none => none
          else none
      | .LOW =>
          match from_expression arg with
          | some a => some (.Subpiece 0 (ByteSize.from_bitsize width) a)
          | none => none
  | .Extract low_bit high_bit arg =>
      match from_expression arg with
      | some a =>
          some (.Subpiece (ByteSize.from_bitsize low_bit)
            (ByteSize.from_bitsize (high_bit - low_bit + 1)) a)
      | none => none
  | .Concat left right =>
      match from_expression left, from_expression right with
      | some l, some r => some (.BinOp .Piece l r)
      | _, _ => none

mutual
/-- A JSON-like value for the wire format: strings, numbers, booleans,
arrays, and objects as ordered field lists. -/
inductive Json where
  | str (s : String)
  | num (n : Nat)
  | bool (b : Bool)
  | arr (xs : JsonList)
  | obj (fields : JsonFields)
deriving DecidableEq

/-- A JSON array: a list of JSON values. -/
inductive JsonList where
  | nil
  | cons (hd : Json) (tl : JsonList)
deriving DecidableEq

/-- The ordered field list of a JSON object. -/
inductive JsonFields where
  | fnil
  | fcons (key : String) (val : Json) (tl : JsonFields)
deriving DecidableEq
end

/-- The exact serde tag of each `BinOpType` variant. -/
def BinOpType.variant_name : BinOpType → String
  | .PLUS => "PLUS"
  | .MINUS => "MINUS"
  | .TIMES => "TIMES"
  | .DIVIDE => "DIVIDE"
  | .SDIVIDE => "SDIVIDE"
  | .MOD => "MOD"
  | .SMOD => "SMOD"
  | .LSHIFT => "LSHIFT"
  | .RSHIFT => "RSHIFT"
  | .ARSHIFT => "ARSHIFT"
  | .AND => "AND"
  | .OR => "OR"
  | .XOR => "XOR"
  | .EQ => "EQ"
  | .NEQ => "NEQ"
  | .LT => "LT"
  | .LE => "LE"
  | .SLT => "SLT"
  | .SLE => "SLE"

/-- Modelled from the spec: enum-valued fields serialize as their literal
variant name strings. -/
def BinOpType.to_json (op : BinOpType) : Json :=
  .str op.variant_name

/-- Modelled from the spec: decoding of a `BinOpType` tag string. -/
def BinOpType.from_json : Json → Option BinOpType
  | .str s =>
      if s = "PLUS" then some .PLUS
      else if s = "MINUS" then some .MINUS
      else if s = "TIMES" then some .TIMES
      else if s = "DIVIDE" then some .DIVIDE
      else if s = "SDIVIDE" then some .SDIVIDE
      else if s = "MOD" then some .MOD
      else if s = "SMOD" then some .SMOD
      else if s = "LSHIFT" then some .LSHIFT
      else if s = "RSHIFT" then some .RSHIFT
      else if s = "ARSHIFT" then some .ARSHIFT
      else if s = "AND" then some .AND
      else if s = "OR" then some .OR
      else if s = "XOR" then some .XOR
      else if s = "EQ" then some .EQ
      else if s = "NEQ" then some .NEQ
      else if s = "LT" then some .LT
      else if s = "LE" then some .LE
      else if s = "SLT" then some .SLT
      else if s = "SLE" then some .SLE
      else none
  | _ => none

/-- The exact serde tag of each `UnOpType` variant. -/
def UnOpType.variant_name : UnOpType → String
  | .NEG => "NEG"
  | .NOT => "NOT"

/-- Modelled from the spec: `UnOpType` serializes as its variant name. -/
def UnOpType.to_json (op : UnOpType) : Json :=
  .str op.variant_name

/-- Modelled from the spec: decoding of a `UnOpType` tag string. -/
def UnOpType.from_json : Json → Option UnOpType
  | .str s =>
      if s = "NEG" then some .NEG
      else if s = "NOT" then some .NOT
      else none
  | _ => none

/-- The exact serde tag of each `CastType` variant. -/
def CastType.variant_name : CastType → String
  | .UNSIGNED => "UNSIGNED"
  | .SIGNED => "SIGNED"
  | .HIGH => "HIGH"
  | .LOW => "LOW"

/-- Modelled from the spec: `CastType` serializes as its variant name. -/
def CastType.to_json (k : CastType) : Json :=
  .str k.variant_name

/-- Modelled from the spec: decoding of a `CastType` tag string. -/
def CastType.from_json : Json → Option CastType
  | .str s =>
      if s = "UNSIGNED" then some .UNSIGNED
      else if s = "SIGNED" then some .SIGNED
      else if s = "HIGH" then some .HIGH
      else if s = "LOW" then some .LOW
      else none
  | _ => none

/-- The exact serde tag of each `Endianness` variant. -/
def Endianness.variant_name : Endianness → String
  | .LittleEndian => "LittleEndian"
  | .BigEndian => "BigEndian"

/-- Modelled from the spec: `Endianness` serializes as its variant name. -/
def Endianness.to_json (en : Endianness) : Json :=
  .str en.variant_name

/-- Modelled from the spec: decoding of an `Endianness` tag string. -/
def Endianness.from_json : Json → Option Endianness
  | .str s =>
      if s = "LittleEndian" then some .LittleEndian
      else if s = "BigEndian" then some .BigEndian
      else none
  | _ => none

/-- Modelled from the spec: the `Type` of a variable serializes in serde's
externally tagged form (variant with payload as a single-key mapping, unit
variant as its bare name). -/
def Type_.to_json : Type_ → Json
  | .Immediate n => .obj (.fcons ("Immediate") (.num n) .fnil)
  | .Other => .str ("Other")

/-- Modelled from the spec: decoding of a variable `Type`. -/
def Type_.from_json : Json → Option Type_
  | .obj (.fcons k (.num n) .fnil) =>
      if k = "Immediate" then some (.Immediate n) else none
  | .str s => if s = "Other" then some .Other else none
  | _ => none

/-- Modelled from the spec: a `Variable` serializes as a field mapping with
its exact field names. -/
def Variable.to_json (v : Variable) : Json :=
  .obj (.fcons ("name") (.str v.name)
    (.fcons ("type_") v.type_.to_json
      (.fcons ("is_temp") (.bool v.is_temp) .fnil)))

/-- Modelled from the spec: decoding of a `Variable`. -/
def Variable.from_json : Json → Option Variable
  | .obj (.fcons f1 (.str n) (.fcons f2 jt (.fcons f3 (.bool b) .fnil))) =>
      if f1 = "name" ∧ f2 = "type_" ∧ f3 = "is_temp" then
        match Type_.from_json jt with
        | some t => some ⟨n, t, b⟩
        | none => none
      else none
  | _ => none

/-- Encodes a digit list as a JSON array of numbers. -/
def Json.num_list : List Nat → JsonList
  | [] => .nil
  | n :: rest => .cons (.num n) (Json.num_list rest)

/-- Decodes a JSON array of numbers into the digit list. -/
def Json.decode_num_list : JsonList → Option (List Nat)
  | .nil => some []
  | .cons (.num n) rest =>
      match Json.decode_num_list rest with
      | some ns => some (n :: ns)
      | none => none
  | _ => none

/-- Modelled from the spec: the immediate value serializes as
`{"digits": [...], "width": [...]}`, a little-endian digit array paired with
an explicit bit-width. -/
def Bitvector.to_json (bv : Bitvector) : Json :=
  .obj (.fcons ("digits") (.arr (Json.num_list bv.digits))
    (.fcons ("width") (.arr (.cons (.num bv.width) .nil)) .fnil))

/-- Modelled from the spec: decoding of an immediate value. -/
def Bitvector.from_json : Json → Option Bitvector
  | .obj (.fcons f1 (.arr ds)
      (.fcons f2 (.arr (.cons (.num w) .nil)) .fnil)) =>
      if f1 = "digits" ∧ f2 = "width" then
        match Json.decode_num_list ds with
        | some digits => some ⟨digits, w⟩
        | none => none
      else none
  | _ => none

/-- The exact serde tag of each `Expression` variant. -/
def Expression.variant_name : Expression → String
  | .Var _ => "Var"
  | .Const _ => "Const"
  | .Load _ _ _ _ => "Load"
  | .Store _ _ _ _ _ => "Store"
  | .BinOp _ _ _ => "BinOp"
  | .UnOp _ _ => "UnOp"
  | .Cast _ _ _ => "Cast"
  | .Let _ _ _ => "Let"
  | .Unknown _ _ => "Unknown"
  | .IfThenElse _ _ _ => "IfThenElse"
  | .Extract _ _ _ => "Extract"
  | .Concat _ _ => "Concat"

/-- Modelled from the spec: the serde-derived encoder of `Expression`
(generated code, not in the sources). Each variant serializes as a
single-key mapping whose key is the exact variant name and whose value is a
field mapping using the exact field names of `bil/mod.rs`. -/
def Expression.to_json : Expression → Json
  | .Var v => .obj (.fcons ("Var") v.to_json .fnil)
  | .Const c => .obj (.fcons ("Const") c.to_json .fnil)
  | .Load m a en s =>
      .obj (.fcons ("Load") (.obj (.fcons ("memory") m.to_json
        (.fcons ("address") a.to_json
          (.fcons ("endian") en.to_json
            (.fcons ("size") (.num s) .fnil))))) .fnil)
  | .Store m a v en s =>
      .obj (.fcons ("Store") (.obj (.fcons ("memory") m.to_json
        (.fcons ("address") a.to_json
          (.fcons ("value") v.to_json
            (.fcons ("endian") en.to_json
              (.fcons ("size") (.num s) .fnil)))))) .fnil)
  | .BinOp op l r =>
      .obj (.fcons ("BinOp") (.obj (.fcons ("op") op.to_json
        (.fcons ("lhs") l.to_json
          (.fcons ("rhs") r.to_json .fnil)))) .fnil)
  | .UnOp op a =>
      .obj (.fcons ("UnOp") (.obj (.fcons ("op") op.to_json
        (.fcons ("arg") a.to_json .fnil))) .fnil)
  | .Cast k w a =>
      .obj (.fcons ("Cast") (.obj (.fcons ("kind") k.to_json
        (.fcons ("width") (.num w)
          (.fcons ("arg") a.to_json .fnil)))) .fnil)
  | .Let v b bo =>
      .obj (.fcons ("Let") (.obj (.fcons ("var") v.to_json
        (.fcons ("bound_exp") b.to_json
          (.fcons ("body_exp") bo.to_json .fnil)))) .fnil)
  | .Unknown d t =>
      .obj (.fcons ("Unknown") (.obj (.fcons ("description") (.str d)
        (.fcons ("type_") t.to_json .fnil))) .fnil)
  | .IfThenElse c t f =>
      .obj (.fcons ("IfThenElse") (.obj (.fcons ("condition") c.to_json
        (.fcons ("true_exp") t.to_json
          (.fcons ("false_exp") f.to_json .fnil)))) .fnil)
  | .Extract lo hi a =>
      .obj (.fcons ("Extract") (.obj (.fcons ("low_bit") (.num lo)
        (.fcons ("high_bit") (.num hi)
          (.fcons ("arg") a.to_json .fnil)))) .fnil)
  | .Concat l r =>
      .obj (.fcons ("Concat") (.obj (.fcons ("left") l.to_json
        (.fcons ("right") r.to_json .fnil))) .fnil)

/-- The number of nodes of an expression tree (at least 1). -/
def Expression.node_count : Expression → Nat
  | .Var _ => 1
  | .Const _ => 1
  | .Load m a _ _ => 1 + m.node_count + a.node_count
  | .Store m a v _ _ => 1 + m.node_count + a.node_count + v.node_count
  | .BinOp _ l r => 1 + l.node_count + r.node_count
  | .UnOp _ a => 1 + a.node_count
  | .Cast _ _ a => 1 + a.node_count
  | .Let _ b bo => 1 + b.node_count + bo.node_count
  | .Unknown _ _ => 1
  | .IfThenElse c t f =>
      1 + c.node_count + t.node_count + f.node_count
  | .Extract _ _ a => 1 + a.node_count
  | .Concat l r => 1 + l.node_count + r.node_count

mutual
/-- The number of nodes of a JSON value. -/
def Json.size : Json → Nat
  | .str _ => 1
  | .num _ => 1
  | .bool _ => 1
  | .arr xs => 1 + xs.size
  | .obj fields => 1 + fields.size

/-- The total size of the values of a JSON array. -/
def JsonList.size : JsonList → Nat
  | .nil => 0
  | .cons hd tl => hd.size + tl.size

/-- The total size of the values of a JSON field list. -/
def JsonFields.size : JsonFields → Nat
  | .fnil => 0
  | .fcons _ v tl => v.size + tl.size
end

/-- Modelled from the spec: the recursion engine of the serde-derived
decoder of `Expression` (generated code, not in the sources), inverse of
the tagged encoding: dispatch on the single tag key, then decode the
payload field mapping. The explicit recursion budget only serves the
embedding; `Expression.from_json` supplies a sufficient budget. -/
def Expression.from_json_fuel : Nat → Json → Option Expression
  | 0, _ => none
  | fuel + 1, j =>
      match j with
      | .obj (.fcons tag payload .fnil) =>
          if tag = "Var" then
            match Variable.from_json payload with
            | some v => some (.Var v)
            | none => none
          else if tag = "Const" then
            match Bitvector.from_json payload with
            | some c => some (.Const c)
            | none => none
          else if tag = "Load" then
            match payload with
            | .obj (.fcons f1 jm (.fcons f2 ja
                (.fcons f3 je (.fcons f4 (.num s) .fnil)))) =>
                if f1 = "memory" ∧ f2 = "address" ∧ f3 = "endian" ∧
                    f4 = "size" then
                  match Expression.from_json_fuel fuel jm,
                      Expression.from_json_fuel fuel ja,
                      Endianness.from_json je with
                  | some m, some a, some en => some (.Load m a en s)
                  | _, _, _ => none
                else none
            | _ => none
          else if tag = "Store" then
            match payload with
            | .obj (.fcons f1 jm (.fcons f2 ja (.fcons f3 jv
                (.fcons f4 je (.fcons f5 (.num s) .fnil))))) =>
                if f1 = "memory" ∧ f2 = "address" ∧ f3 = "value" ∧
                    f4 = "endian" ∧ f5 = "size" then
                  match Expression.from_json_fuel fuel jm,
                      Expression.from_json_fuel fuel ja,
                      Expression.from_json_fuel fuel jv,
                      Endianness.from_json je with
                  | some m, some a, some v, some en =>
                      some (.Store m a v en s)
                  | _, _, _, _ => none
                else none
            | _ => none
          else if tag = "BinOp" then
            match payload with
            | .obj (.fcons f1 jo (.fcons f2 jl (.fcons f3 jr .fnil))) =>
                if f1 = "op" ∧ f2 = "lhs" ∧ f3 = "rhs" then
                  match BinOpType.from_json jo,
                      Expression.from_json_fuel fuel jl,
                      Expression.from_json_fuel fuel jr with
                  | some op, some l, some r => some (.BinOp op l r)
                  | _, _, _ => none
                else none
            | _ => none
          else if tag = "UnOp" then
            match payload with
            | .obj (.fcons f1 jo (.fcons f2 ja .fnil)) =>
                if f1 = "op" ∧ f2 = "arg" then
                  match UnOpType.from_json jo,
                      Expression.from_json_fuel fuel ja with
                  | some op, some a => some (.UnOp op a)
                  | _, _ => none
                else none
            | _ => none
          else if tag = "Cast" then
            match payload with
            | .obj (.fcons f1 jk (.fcons f2 (.num w)
                (.fcons f3 ja .fnil))) =>
                if f1 = "kind" ∧ f2 = "width" ∧ f3 = "arg" then
                  match CastType.from_json jk,
                      Expression.from_json_fuel fuel ja with
                  | some k, some a => some (.Cast k w a)
                  | _, _ => none
                else none
            | _ => none
          else if tag = "Let" then
            match payload with
            | .obj (.fcons f1 jv (.fcons f2 jb (.fcons f3 jbo .fnil))) =>
                if f1 = "var" ∧ f2 = "bound_exp" ∧ f3 = "body_exp" then
                  match Variable.from_json jv,
                      Expression.from_json_fuel fuel jb,
                      Expression.from_json_fuel fuel jbo with
                  | some v, some b, some bo => some (.Let v b bo)
                  | _, _, _ => none
                else none
            | _ => none
          else if tag = "Unknown" then
            match payload with
            | .obj (.fcons f1 (.str d) (.fcons f2 jt .fnil)) =>
                if f1 = "description" ∧ f2 = "type_" then
                  match Type_.from_json jt with
                  | some t => some (.Unknown d t)
                  | none => none
                else none
            | _ => none
          else if tag = "IfThenElse" then
            match payload with
            | .obj (.fcons f1 jc (.fcons f2 jt (.fcons f3 jf .fnil))) =>
                if f1 = "condition" ∧ f2 = "true_exp" ∧
                    f3 = "false_exp" then
                  match Expression.from_json_fuel fuel jc,
                      Expression.from_json_fuel fuel jt,
                      Expression.from_json_fuel fuel jf with
                  | some c, some t, some f => some (.IfThenElse c t f)
                  | _, _, _ => none
                else none
            | _ => none
          else if tag = "Extract" then
            match payload with
            | .obj (.fcons f1 (.num lo) (.fcons f2 (.num hi)
                (.fcons f3 ja .fnil))) =>
                if f1 = "low_bit" ∧ f2 = "high_bit" ∧ f3 = "arg" then
                  match Expression.from_json_fuel fuel ja with
                  | some a => some (.Extract lo hi a)
                  | none => none
                else none
            | _ => none
          else if tag = "Concat" then
            match payload with
            | .obj (.fcons f1 jl (.fcons f2 jr .fnil)) =>
                if f1 = "left" ∧ f2 = "right" then
                  match Expression.from_json_fuel fuel jl,
                      Expression.from_json_fuel fuel jr with
                  | some l, some r => some (.Concat l r)
                  | _, _ => none
                else none
            | _ => none
          else none
      | _ => none

/-- Modelled from the spec: the serde-derived decoder of `Expression`
(generated code, not in the sources), inverse of the tagged encoding. The
size of the input bounds the recursion of the decoder. -/
def Expression.from_json (j : Json) : Option Expression :=
  Expression.from_json_fuel j.size j

/-- Is the operator one of the six comparison operators of the `BinOp`
width rule? (Specification-side predicate.) -/
def BinOpType.is_comparison : BinOpType → Bool
  | .EQ | .NEQ | .LT | .LE | .SLT | .SLE => true
  | _ => false

/-- Do all `Var` and `Unknown` nodes of the tree carry a resolvable width?
(Specification-side predicate for the totality statement of `bitsize`.) -/
def Expression.widths_resolvable : Expression → Bool
  | .Var v => v.bitsize.isSome
  | .Const _ => true
  | .Load m a _ _ => m.widths_resolvable && a.widths_resolvable
  | .Store m a v _ _ =>
      m.widths_resolvable && a.widths_resolvable && v.widths_resolvable
  | .BinOp _ l r => l.widths_resolvable && r.widths_resolvable
  | .UnOp _ a => a.widths_resolvable
  | .Cast _ _ a => a.widths_resolvable
  | .Let _ b bo => b.widths_resolvable && bo.widths_resolvable
  | .Unknown _ t => t.bitsize.isSome
  | .IfThenElse c t f =>
      c.widths_resolvable && t.widths_resolvable && f.widths_resolvable
  | .Extract _ _ a => a.widths_resolvable
  | .Concat l r => l.widths_resolvable && r.widths_resolvable

/-- Concrete fixture: a 64-bit register variable named x. -/
def var_x : Variable := ⟨"x", .Immediate 64, false⟩

/-- Concrete fixture: a 64-bit register variable named y. -/
def var_y : Variable := ⟨"y", .Immediate 64, false⟩

/-- Concrete fixture: a variable whose declared type has no width. -/
def var_untyped : Variable := ⟨"u", .Other, false⟩

/-- Concrete fixture: the 64-bit constant 1. -/
def bv64_1 : Bitvector := ⟨[1], 64⟩

/-- Concrete fixture: the 64-bit constant 2. -/
def bv64_2 : Bitvector := ⟨[2], 64⟩

/-- Concrete fixture: the 64-bit constant 12. -/
def bv64_12 : Bitvector := ⟨[12], 64⟩

/-- Concrete fixture: the 64-bit constant 42. -/
def bv64_42 : Bitvector := ⟨[42], 64⟩

/-- Concrete fixture: a 12-bit (non-byte-aligned) constant. -/
def bv12_0 : Bitvector := ⟨[0], 12⟩

/-- Concrete fixture: a 32-bit constant. -/
def bv32_0 : Bitvector := ⟨[0], 32⟩

/-- Concrete fixture: the 64-bit constant 0. -/
def bv64_0 : Bitvector := ⟨[0], 64⟩

/-- Concrete fixture: a bare load node, `Load{memory: Var(m), address:
Const(0), endian: LittleEndian, size: 32}`. -/
def bare_load : Expression :=
  .Load (.Var var_x) (.Const bv64_0) .LittleEndian 32

/-- Concrete fixture: the nested-binding input
`Let{var: x, bound_exp: Let{var: y, bound_exp: 1, body_exp: 2},
body_exp: Var(x)}` — a `Let` inside a binding's bound expression whose
bound variable occurs in the body. -/
def nested_let_input : Expression :=
  .Let var_x (.Let var_y (.Const bv64_1) (.Const bv64_2)) (.Var var_x)

/-- Helper: on a tree with no `Let` node, the elimination pass rebuilds the
tree unchanged. -/
theorem Expression.replace_let_bindings_of_let_free :
    ∀ e : Expression, e.contains_let = false →
      e.replace_let_bindings = e := by
  intro e
  induction e with
  | Var v => intro _; rfl
  | Const c => intro _; rfl
  | Load m a en s ihm iha =>
      intro h
      simp [Expression.contains_let] at h
      simp [Expression.replace_let_bindings, ihm h.1, iha h.2]
  | Store m a v en s ihm iha ihv =>
      intro h
      simp [Expression.contains_let] at h
      simp [Expression.replace_let_bindings, ihm h.1.1, iha h.1.2, ihv h.2]
  | BinOp op l r ihl ihr =>
      intro h
      simp [Expression.contains_let] at h
      simp [Expression.replace_let_bindings, ihl h.1, ihr h.2]
  | UnOp op a iha =>
      intro h
      simp [Expression.contains_let] at h
      simp [Expression.replace_let_bindings, iha h]
  | Cast k w a iha =>
      intro h
      simp [Expression.contains_let] at h
      simp [Expression.replace_let_bindings, iha h]
  | Let v b bo ihb ihbo =>
      intro h
      simp [Expression.contains_let] at h
  | Unknown d t => intro _; rfl
  | IfThenElse c t f ihc iht ihf =>
      intro h
      simp [Expression.contains_let] at h
      simp [Expression.replace_let_bindings, ihc h.1.1, iht h.1.2, ihf h.2]
  | Extract lo hi a iha =>
      intro h
      simp [Expression.contains_let] at h
      simp [Expression.replace_let_bindings, iha h]
  | Concat l r ihl ihr =>
      intro h
      simp [Expression.contains_let] at h
      simp [Expression.replace_let_bindings, ihl h.1, ihr h.2]

/-- Helper: lowering aborts (produces `none`) on any tree that is or
contains an unsupported variant. -/
theorem IrExpression.from_expression_none_of_unsupported :
    ∀ e : Expression, e.contains_unsupported = true →
      IrExpression.from_expression e = none := by
  intro e
  induction e with
  | Var v => intro h; simp [Expression.contains_unsupported] at h
  | Const c => intro h; simp [Expression.contains_unsupported] at h
  | Load m a en s ihm iha => intro _; rfl
  | Store m a v en s ihm iha ihv => intro _; rfl
  | BinOp op l r ihl ihr =>
      intro h
      simp [Expression.contains_unsupported] at h
      rcases h with h | h
      · simp [IrExpression.from_expression, ihl h]
      · cases hl : IrExpression.from_expression l <;>
          simp [IrExpression.from_expression, hl, ihr h]
  | UnOp op a iha =>
      intro h
      simp [Expression.contains_unsupported] at h
      simp [IrExpression.from_expression, iha h]
  | Cast k w a iha =>
      intro h
      simp [Expression.contains_unsupported] at h
      cases k <;>
        cases hb : (a : Expression).bitsize <;>
          by_cases hw : w % 8 = 0 <;>
            simp [IrExpression.from_expression, hb, hw, iha h]
  | Let v b bo ihb ihbo => intro _; rfl
  | Unknown d t => intro _; rfl
  | IfThenElse c t f ihc iht ihf => intro _; rfl
  | Extract lo hi a iha =>
      intro h
      simp [Expression.contains_unsupported] at h
      simp [IrExpression.from_expression, iha h]
  | Concat l r ihl ihr =>
      intro h
      simp [Expression.contains_unsupported] at h
      rcases h with h | h
      · simp [IrExpression.from_expression, ihl h]
      · cases hl : IrExpression.from_expression l <;>
          simp [IrExpression.from_expression, hl, ihr h]

/-- Helper: on a tree with no `Let` node and with all variable and unknown
widths resolvable, width inference succeeds. -/
theorem Expression.bitsize_isSome_of_let_free_resolvable :
    ∀ e : Expression, e.contains_let = false →
      e.widths_resolvable = true → e.bitsize.isSome = true := by
  intro e
  induction e with
  | Var v =>
      intro _ h2
      simpa [Expression.bitsize, Expression.widths_resolvable] using h2
  | Const c => intro _ _; rfl
  | Load m a en s ihm iha => intro _ _; rfl
  | Store m a v en s ihm iha ihv => intro _ _; rfl
  | BinOp op l r ihl ihr =>
      intro h1 h2
      simp [Expression.contains_let] at h1
      simp [Expression.widths_resolvable] at h2
      cases op <;> simp only [Expression.bitsize] <;>
        first
        | rfl
        | exact ihl h1.1 h2.1
  | UnOp op a iha =>
      intro h1 h2
      simp [Expression.contains_let] at h1
      simp [Expression.widths_resolvable] at h2
      exact iha h1 h2
  | Cast k w a iha => intro _ _; rfl
  | Let v b bo ihb ihbo =>
      intro h1 _
      simp [Expression.contains_let] at h1
  | Unknown d t =>
      intro _ h2
      simpa [Expression.bitsize, Expression.widths_resolvable] using h2
  | IfThenElse c t f ihc iht ihf =>
      intro h1 h2
      simp [Expression.contains_let] at h1
      simp [Expression.widths_resolvable] at h2
      exact iht h1.1.2 h2.1.2
  | Extract lo hi a iha => intro _ _; rfl
  | Concat l r ihl ihr =>
      intro h1 h2
      simp [Expression.contains_let] at h1
      simp [Expression.widths_resolvable] at h2
      rcases Option.isSome_iff_exists.mp (ihl h1.1 h2.1) with ⟨x, hx⟩
      rcases Option.isSome_iff_exists.mp (ihr h1.2 h2.2) with ⟨y, hy⟩
      simp [Expression.bitsize, hx, hy]

/-- Helper: the operator tag round-trips. -/
theorem binop_tag_roundtrip (op : BinOpType) :
    BinOpType.from_json op.to_json = some op := by
  cases op <;> rfl

/-- Helper: the unary-operator tag round-trips. -/
theorem unop_tag_roundtrip (op : UnOpType) :
    UnOpType.from_json op.to_json = some op := by
  cases op <;> rfl

/-- Helper: the cast-kind tag round-trips. -/
theorem cast_tag_roundtrip (k : CastType) :
    CastType.from_json k.to_json = some k := by
  cases k <;> rfl

/-- Helper: the endianness tag round-trips. -/
theorem endianness_tag_roundtrip (en : Endianness) :
    Endianness.from_json en.to_json = some en := by
  cases en <;> rfl

/-- Helper: a variable type round-trips. -/
theorem type_encoding_roundtrip (t : Type_) :
    Type_.from_json t.to_json = some t := by
  cases t <;> rfl

/-- Helper: a variable round-trips. -/
theorem variable_encoding_roundtrip (v : Variable) :
    Variable.from_json v.to_json = some v := by
  cases v with
  | mk n t b =>
      simp [Variable.to_json, Variable.from_json, type_encoding_roundtrip]

/-- Helper: a digit list round-trips. -/
theorem Json.decode_num_list_map (l : List Nat) :
    Json.decode_num_list (Json.num_list l) = some l := by
  induction l with
  | nil => rfl
  | cons n rest ih => simp [Json.num_list, Json.decode_num_list, ih]

/-- Helper: an immediate value round-trips. -/
theorem bitvector_encoding_roundtrip (bv : Bitvector) :
    Bitvector.from_json bv.to_json = some bv := by
  cases bv with
  | mk ds w =>
      simp [Bitvector.to_json, Bitvector.from_json, Json.decode_num_list_map]

/-- Helper: with any sufficient recursion budget, an encoded expression
decodes back to itself. -/
theorem Expression.from_json_fuel_to_json :
    ∀ e : Expression, ∀ fuel : Nat, e.node_count ≤ fuel →
      Expression.from_json_fuel fuel e.to_json = some e := by
  intro e
  induction e with
  | Var v =>
      intro fuel h
      simp only [Expression.node_count] at h
      cases fuel with
      | zero => omega
      | succ f =>
          simp only [Expression.to_json, Expression.from_json_fuel]
          simp [variable_encoding_roundtrip]
  | Const c =>
      intro fuel h
      simp only [Expression.node_count] at h
      cases fuel with
      | zero => omega
      | succ f =>
          simp only [Expression.to_json, Expression.from_json_fuel]
          simp [bitvector_encoding_roundtrip]
  | Load m a en s ihm iha =>
      intro fuel h
      simp only [Expression.node_count] at h
      cases fuel with
      | zero => omega
      | succ f =>
          simp only [Expression.to_json, Expression.from_json_fuel]
          simp [ihm f (by omega), iha f (by omega), endianness_tag_roundtrip]
  | Store m a v en s ihm iha ihv =>
      intro fuel h
      simp only [Expression.node_count] at h
      cases fuel with
      | zero => omega
      | succ f =>
          simp only [Expression.to_json, Expression.from_json_fuel]
          simp [ihm f (by omega), iha f (by omega), ihv f (by omega), endianness_tag_roundtrip]
  | BinOp op l r ihl ihr =>
      intro fuel h
      simp only [Expression.node_count] at h
      cases fuel with
      | zero => omega
      | succ f =>
          simp only [Expression.to_json, Expression.from_json_fuel]
          simp [ihl f (by omega), ihr f (by omega), binop_tag_roundtrip]
  | UnOp op a iha =>
      intro fuel h
      simp only [Expression.node_count] at h
      cases fuel with
      | zero => omega
      | succ f =>
          simp only [Expression.to_json, Expression.from_json_fuel]
          simp [iha f (by omega), unop_tag_roundtrip]
  | Cast k w a iha =>
      intro fuel h
      simp only [Expression.node_count] at h
      cases fuel with
      | zero => omega
      | succ f =>
          simp only [Expression.to_json, Expression.from_json_fuel]
          simp [iha f (by omega), cast_tag_roundtrip]
  | Let v b bo ihb ihbo =>
      intro fuel h
      simp only [Expression.node_count] at h
      cases fuel with
      | zero => omega
      | succ f =>
          simp only [Expression.to_json, Expression.from_json_fuel]
          simp [ihb f (by omega), ihbo f (by omega), variable_encoding_roundtrip]
  | Unknown d t =>
      intro fuel h
      simp only [Expression.node_count] at h
      cases fuel with
      | zero => omega
      | succ f =>
          simp only [Expression.to_json, Expression.from_json_fuel]
          simp [type_encoding_roundtrip]
  | IfThenElse c t f ihc iht ihf =>
      intro fuel h
      simp only [Expression.node_count] at h
      cases fuel with
      | zero => omega
      | succ f =>
          simp only [Expression.to_json, Expression.from_json_fuel]
          simp [ihc f (by omega), iht f (by omega), ihf f (by omega)]
  | Extract lo hi a iha =>
      intro fuel h
      simp only [Expression.node_count] at h
      cases fuel with
      | zero => omega
      | succ f =>
          simp only [Expression.to_json, Expression.from_json_fuel]
          simp [iha f (by omega)]
  | Concat l r ihl ihr =>
      intro fuel h
      simp only [Expression.node_count] at h
      cases fuel with
      | zero => omega
      | succ f =>
          simp only [Expression.to_json, Expression.from_json_fuel]
          simp [ihl f (by omega), ihr f (by omega)]

/-- Helper: the encoding of an expression has at least as many nodes as the
expression, so the decoder budget of `Expression.from_json` suffices. -/
theorem Expression.node_count_le_size_to_json :
    ∀ e : Expression, e.node_count ≤ e.to_json.size := by
  intro e
  induction e with
  | Var v =>
      simp only [Expression.to_json, Expression.node_count, Json.size,
        JsonList.size, JsonFields.size]
      omega
  | Const c =>
      simp only [Expression.to_json, Expression.node_count, Json.size,
        JsonList.size, JsonFields.size]
      omega
  | Load m a en s ihm iha =>
      simp only [Expression.to_json, Expression.node_count, Json.size,
        JsonList.size, JsonFields.size] at ihm iha ⊢
      omega
  | Store m a v en s ihm iha ihv =>
      simp only [Expression.to_json, Expression.node_count, Json.size,
        JsonList.size, JsonFields.size] at ihm iha ihv ⊢
      omega
  | BinOp op l r ihl ihr =>
      simp only [Expression.to_json, Expression.node_count, Json.size,
        JsonList.size, JsonFields.size] at ihl ihr ⊢
      omega
  | UnOp op a iha =>
      simp only [Expression.to_json, Expression.node_count, Json.size,
        JsonList.size, JsonFields.size] at iha ⊢
      omega
  | Cast k w a iha =>
      simp only [Expression.to_json, Expression.node_count, Json.size,
        JsonList.size, JsonFields.size] at iha ⊢
      omega
  | Let v b bo ihb ihbo =>
      simp only [Expression.to_json, Expression.node_count, Json.size,
        JsonList.size, JsonFields.size] at ihb ihbo ⊢
      omega
  | Unknown d t =>
      simp only [Expression.to_json, Expression.node_count, Json.size,
        JsonList.size, JsonFields.size]
      omega
  | IfThenElse c t f ihc iht ihf =>
      simp only [Expression.to_json, Expression.node_count, Json.size,
        JsonList.size, JsonFields.size] at ihc iht ihf ⊢
      omega
  | Extract lo hi a iha =>
      simp only [Expression.to_json, Expression.node_count, Json.size,
        JsonList.size, JsonFields.size] at iha ⊢
      omega
  | Concat l r ihl ihr =>
      simp only [Expression.to_json, Expression.node_count, Json.size,
        JsonList.size, JsonFields.size] at ihl ihr ⊢
      omega

/-- Helper: an expression tree round-trips through the tagged encoding. -/
theorem expression_encoding_roundtrip (e : Expression) :
    Expression.from_json e.to_json = some e :=
  Expression.from_json_fuel_to_json e e.to_json.size
    (Expression.node_count_le_size_to_json e)

/-- Sanity check mirroring the unit test of `bil/mod.rs`: eliminating
`let x = 12 in x + 42` yields `12 + 42`. -/
theorem replace_let_bindings_unit_test :
    (Expression.Let var_x (.Const bv64_12)
      (.BinOp .PLUS (.Var var_x) (.Const bv64_42))).replace_let_bindings =
    .BinOp .PLUS (.Const bv64_12) (.Const bv64_42) := by
  decide

/-- C1: the claim states that after `replace_let_bindings` no `Let` variant
appears anywhere in the result, including for `Let` nodes nested inside a
binding's bound expression. The code violates this: on
`Let{var: x, bound_exp: Let{var: y, bound_exp: 1, body_exp: 2},
body_exp: Var(x)}` the pass never recurses into `bound_exp` and substitutes
it as-is into the body, so the result is the inner `Let` itself and still
contains a `Let` node, contradicting both the claim and the function's own
documentation ("create an equivalent expression without usage of
let-bindings"). -/
theorem c1_let_elimination_leaves_let_in_bound_exp :
    nested_let_input.replace_let_bindings =
      .Let var_y (.Const bv64_1) (.Const bv64_2) ∧
    nested_let_input.replace_let_bindings.contains_let = true := by
  constructor <;> decide

/-- C2 (counterexample): the claim states that the byte offset of the
lowered `Cast{HIGH, width, arg}` equals `(arg.bitsize() − width) / 8`. On
`Cast{HIGH, 8, Const(12-bit)}` the width is a multiple of 8, yet the code
computes the offset through the rounding-up bit-to-byte conversion and
yields byte offset 1, while `(12 − 8) / 8 = 0`. -/
theorem c2_high_cast_counterexample :
    (8 : BitSize) % 8 = 0 ∧
    (Expression.Const bv12_0).bitsize = some 12 ∧
    IrExpression.from_expression (.Cast .HIGH 8 (.Const bv12_0)) =
      some (.Subpiece 1 1 (.Const bv12_0)) ∧
    (1 : ByteSize) ≠ (12 - 8) / 8 := by
  refine ⟨rfl, rfl, ?_, by decide⟩
  decide

/-- C2 (amended): for `Cast{HIGH, width, arg}` with `width` a multiple of 8,
lowering produces a subpiece whose size is `width` converted to bytes and
whose byte offset is `arg.bitsize() − width` converted to bytes rounding up,
i.e. `(arg.bitsize() − width + 7) / 8` (equal to
`(arg.bitsize() − width) / 8` only when `arg.bitsize()` is itself
byte-aligned); if `width` is not a multiple of 8, lowering fails fatally. -/
theorem c2_high_cast_lowering (w ab : BitSize) (a : Expression)
    (ia : IrExpression) (hle : w ≤ ab) (hw : w % 8 = 0)
    (hab : a.bitsize = some ab)
    (hia : IrExpression.from_expression a = some ia) :
    IrExpression.from_expression (.Cast .HIGH w a) =
      some (.Subpiece (ByteSize.from_bitsize (ab - w))
        (ByteSize.from_bitsize w) ia) ∧
    ByteSize.from_bitsize (ab - w) = (ab - w + 7) / 8 ∧
    (∀ (w' : BitSize) (a' : Expression), w' % 8 ≠ 0 →
      IrExpression.from_expression (.Cast .HIGH w' a') = none) := by
  refine ⟨?_, rfl, ?_⟩
  · simp [IrExpression.from_expression, hw, hab, hia]
  · intro w' a' hw'
    simp [IrExpression.from_expression, hw']

/-- C2 (witness): the amended claim at `Cast{HIGH, 16, Const(32-bit)}`. -/
theorem c2_high_cast_lowering_witness :
    IrExpression.from_expression (.Cast .HIGH 16 (.Const bv32_0)) =
      some (.Subpiece (ByteSize.from_bitsize (32 - 16))
        (ByteSize.from_bitsize 16) (.Const bv32_0)) :=
  (c2_high_cast_lowering 16 32 (.Const bv32_0) (.Const bv32_0)
    (by decide) (by decide) (by decide) (by decide)).1

/-- C3 (counterexample): the claim states that lowering
`Extract{low_bit, high_bit, arg}` produces a subpiece starting at byte
offset `low_bit`. On `Extract{16, 31, Const(32-bit)}` the code converts
`low_bit` from bits to bytes (rounding up) and produces byte offset 2,
not 16. -/
theorem c3_extract_counterexample :
    IrExpression.from_expression (.Extract 16 31 (.Const bv32_0)) =
      some (.Subpiece 2 2 (.Const bv32_0)) ∧
    (2 : ByteSize) ≠ 16 := by
  refine ⟨?_, by decide⟩
  decide

/-- C3 (amended): lowering `Extract{low_bit, high_bit, arg}` produces a
subpiece whose size is `high_bit − low_bit + 1` bits converted to bytes
(rounding up) and whose byte offset is `low_bit` converted to bytes
(rounding up, `(low_bit + 7) / 8`), while `bitsize()` of the same node
returns `high_bit − low_bit` without the `+1`; both behaviors hold
simultaneously. -/
theorem c3_extract_lowering_and_bitsize (lo hi : BitSize) (a : Expression)
    (ia : IrExpression)
    (hia : IrExpression.from_expression a = some ia) :
    IrExpression.from_expression (.Extract lo hi a) =
      some (.Subpiece (ByteSize.from_bitsize lo)
        (ByteSize.from_bitsize (hi - lo + 1)) ia) ∧
    ByteSize.from_bitsize lo = (lo + 7) / 8 ∧
    (Expression.Extract lo hi a).bitsize = some (hi - lo) := by
  refine ⟨?_, rfl, rfl⟩
  simp [IrExpression.from_expression, hia]

/-- C3 (witness): the amended claim at `Extract{16, 31, Const(32-bit)}`. -/
theorem c3_extract_lowering_and_bitsize_witness :
    IrExpression.from_expression (.Extract 16 31 (.Const bv32_0)) =
      some (.Subpiece (ByteSize.from_bitsize 16)
        (ByteSize.from_bitsize (31 - 16 + 1)) (.Const bv32_0)) ∧
    (Expression.Extract 16 31 (.Const bv32_0)).bitsize = some (31 - 16) :=
  ⟨(c3_extract_lowering_and_bitsize 16 31 (.Const bv32_0) (.Const bv32_0)
      (by decide)).1,
   (c3_extract_lowering_and_bitsize 16 31 (.Const bv32_0) (.Const bv32_0)
      (by decide)).2.2⟩

/-- C4: lowering an `Expression` that is, or contains, a `Load`, `Store`,
`Let`, `Unknown` or `IfThenElse` node fails fatally: the conversion aborts
and returns no output at all, so no partial translation is produced. -/
theorem c4_unsupported_nodes_fatal (e : Expression)
    (h : e.contains_unsupported = true) :
    IrExpression.from_expression e = none :=
  IrExpression.from_expression_none_of_unsupported e h

/-- C4 (witness): lowering the bare load node of the spec,
`Load{memory: Var(m), address: Const(0), endian: LittleEndian, size: 32}`,
produces nothing. -/
theorem c4_unsupported_nodes_fatal_witness :
    bare_load.contains_unsupported = true ∧
    IrExpression.from_expression bare_load = none :=
  ⟨by decide, c4_unsupported_nodes_fatal bare_load (by decide)⟩

/-- C5: `bitsize()` of `BinOp{op, lhs, rhs}` returns 1 when `op` is one of
the six comparison operators EQ, NEQ, LT, LE, SLT, SLE — for operands of
any width, without inspecting them — and returns `bitsize(lhs)` for every
other operator. -/
theorem c5_binop_bitsize (op : BinOpType) (l r : Expression) :
    (op.is_comparison = true →
      (Expression.BinOp op l r).bitsize = some 1) ∧
    (op.is_comparison = false →
      (Expression.BinOp op l r).bitsize = l.bitsize) := by
  cases op <;> simp [BinOpType.is_comparison, Expression.bitsize]

/-- C5 (witness): a comparison of two 64-bit constants is 1-bit wide, and a
non-comparison of the same operands has the width of its left operand. -/
theorem c5_binop_bitsize_witness :
    BinOpType.EQ.is_comparison = true ∧
    (Expression.BinOp .EQ (.Const bv64_1) (.Const bv64_2)).bitsize
      = some 1 ∧
    BinOpType.PLUS.is_comparison = false ∧
    (Expression.BinOp .PLUS (.Const bv64_1) (.Const bv64_2)).bitsize
      = (Expression.Const bv64_1).bitsize :=
  ⟨rfl, (c5_binop_bitsize .EQ (.Const bv64_1) (.Const bv64_2)).1 rfl,
   rfl, (c5_binop_bitsize .PLUS (.Const bv64_1) (.Const bv64_2)).2 rfl⟩

/-- C6 (counterexample): the claim states `bitsize()` is total on every
Let-free tree, and simultaneously that it fails fatally on a `Var` whose
declared type carries no resolvable width — but such a `Var` is itself a
Let-free tree, so totality over all Let-free trees is false. -/
theorem c6_bitsize_counterexample :
    (Expression.Var var_untyped).contains_let = false ∧
    (Expression.Var var_untyped).bitsize = none := by
  constructor <;> rfl

/-- C6 (amended): `bitsize()` is total on every Let-free tree all of whose
`Var` and `Unknown` nodes carry resolvable widths; it fails fatally when
invoked on a `Let` node, and on a `Var` whose declared type carries no
resolvable width. -/
theorem c6_bitsize_totality (e : Expression)
    (h1 : e.contains_let = false) (h2 : e.widths_resolvable = true) :
    e.bitsize.isSome = true ∧
    (∀ (v : Variable) (b bo : Expression),
      (Expression.Let v b bo).bitsize = none) ∧
    (∀ v : Variable, v.bitsize = none →
      (Expression.Var v).bitsize = none) := by
  refine ⟨Expression.bitsize_isSome_of_let_free_resolvable e h1 h2, ?_, ?_⟩
  · intro v b bo
    rfl
  · intro v hv
    simpa [Expression.bitsize] using hv

/-- C6 (witness): the amended claim at `Var(x) + 42` with `x` a 64-bit
register. -/
theorem c6_bitsize_totality_witness :
    (Expression.BinOp .PLUS (.Var var_x)
      (.Const bv64_42)).bitsize.isSome = true :=
  (c6_bitsize_totality (.BinOp .PLUS (.Var var_x) (.Const bv64_42))
    (by decide) (by decide)).1

/-- C7: lowering maps `UnOp{NEG, arg}` to the target's two's-complement
negation operator `Int2Comp` and `UnOp{NOT, arg}` to the target's bitwise
complement operator `IntNegate` — the names being swapped relative to
conventional meaning. -/
theorem c7_unop_swapped_names (a : Expression) (ia : IrExpression)
    (hia : IrExpression.from_expression a = some ia) :
    UnOpType.into .NEG = IrUnOpType.Int2Comp ∧
    UnOpType.into .NOT = IrUnOpType.IntNegate ∧
    IrExpression.from_expression (.UnOp .NEG a) =
      some (.UnOp .Int2Comp ia) ∧
    IrExpression.from_expression (.UnOp .NOT a) =
      some (.UnOp .IntNegate ia) := by
  refine ⟨rfl, rfl, ?_, ?_⟩ <;>
    simp [IrExpression.from_expression, hia, UnOpType.into]

/-- C7 (witness): the negation maps at a concrete 64-bit constant operand. -/
theorem c7_unop_swapped_names_witness :
    IrExpression.from_expression (.UnOp .NEG (.Const bv64_1)) =
      some (.UnOp .Int2Comp (.Const bv64_1)) ∧
    IrExpression.from_expression (.UnOp .NOT (.Const bv64_1)) =
      some (.UnOp .IntNegate (.Const bv64_1)) :=
  ⟨(c7_unop_swapped_names (.Const bv64_1) (.Const bv64_1) (by decide)).2.2.1,
   (c7_unop_swapped_names (.Const bv64_1) (.Const bv64_1) (by decide)).2.2.2⟩

/-- C8: for every constructible `Expression` tree, decoding the serialized
encoding yields a structurally equal tree (`decode(encode(x)) = x`), and
each tree serializes as a single-key mapping keyed by its exact variant
name. -/
theorem c8_serialization_roundtrip (e : Expression) :
    Expression.from_json (Expression.to_json e) = some e ∧
    ∃ payload : Json, Expression.to_json e =
      .obj (.fcons e.variant_name payload .fnil) := by
  refine ⟨expression_encoding_roundtrip e, ?_⟩
  cases e <;> exact ⟨_, rfl⟩

/-- C9: the bit-to-byte conversion always rounds up to the nearest full
byte, computing `(bits + 7) / 8`; consequently every byte offset and size
produced during lowering — the `Extract` offset from `low_bit`, the `HIGH`
cast's offset from `arg.bitsize() − width`, and all cast and subpiece
sizes — is that rounded-up byte count, not a truncating division. -/
theorem c9_byte_conversion_rounds_up (b w ab lo hi : BitSize)
    (a : Expression) (ia : IrExpression)
    (hia : IrExpression.from_expression a = some ia) (hw : w % 8 = 0)
    (hab : a.bitsize = some ab) :
    (ByteSize.from_bitsize b = (b + 7) / 8 ∧
      b ≤ 8 * ByteSize.from_bitsize b ∧
      8 * ByteSize.from_bitsize b < b + 8) ∧
    IrExpression.from_expression (.Extract lo hi a) =
      some (.Subpiece (ByteSize.from_bitsize lo)
        (ByteSize.from_bitsize (hi - lo + 1)) ia) ∧
    IrExpression.from_expression (.Cast .HIGH w a) =
      some (.Subpiece (ByteSize.from_bitsize (ab - w))
        (ByteSize.from_bitsize w) ia) ∧
    IrExpression.from_expression (.Cast .UNSIGNED w a) =
      some (.Cast .IntZExt (ByteSize.from_bitsize w) ia) ∧
    IrExpression.from_expression (.Cast .SIGNED w a) =
      some (.Cast .IntSExt (ByteSize.from_bitsize w) ia) ∧
    IrExpression.from_expression (.Cast .LOW w a) =
      some (.Subpiece 0 (ByteSize.from_bitsize w) ia) := by
  refine ⟨⟨rfl, ?_, ?_⟩, ?_, ?_, ?_, ?_, ?_⟩
  · have h : ∀ n : Nat, n ≤ 8 * ((n + 7) / 8) := by omega
    exact h b
  · have h : ∀ n : Nat, 8 * ((n + 7) / 8) < n + 8 := by omega
    exact h b
  all_goals simp [IrExpression.from_expression, hia, hw, hab]

/-- C9 (witness): the conversion and all lowering sites at concrete inputs
(a 5-bit count rounding up to 1 byte; `Extract{16, 31, Const(32-bit)}` and
the casts of width 16 on the same constant). -/
theorem c9_byte_conversion_rounds_up_witness :
    (ByteSize.from_bitsize 5 = (5 + 7) / 8 ∧
      5 ≤ 8 * ByteSize.from_bitsize 5 ∧
      8 * ByteSize.from_bitsize 5 < 5 + 8) ∧
    IrExpression.from_expression (.Extract 16 31 (.Const bv32_0)) =
      some (.Subpiece (ByteSize.from_bitsize 16)
        (ByteSize.from_bitsize (31 - 16 + 1)) (.Const bv32_0)) ∧
    IrExpression.from_expression (.Cast .HIGH 16 (.Const bv32_0)) =
      some (.Subpiece (ByteSize.from_bitsize (32 - 16))
        (ByteSize.from_bitsize 16) (.Const bv32_0)) ∧
    IrExpression.from_expression (.Cast .UNSIGNED 16 (.Const bv32_0)) =
      some (.Cast .IntZExt (ByteSize.from_bitsize 16) (.Const bv32_0)) ∧
    IrExpression.from_expression (.Cast .SIGNED 16 (.Const bv32_0)) =
      some (.Cast .IntSExt (ByteSize.from_bitsize 16) (.Const bv32_0)) ∧
    IrExpression.from_expression (.Cast .LOW 16 (.Const bv32_0)) =
      some (.Subpiece 0 (ByteSize.from_bitsize 16) (.Const bv32_0)) :=
  c9_byte_conversion_rounds_up 5 16 32 16 31 (.Const bv32_0)
    (.Const bv32_0) (by decide) (by decide) (by decide)

/-- C10: on a tree containing no `Let` node anywhere, the let-elimination
pass leaves the tree structurally unchanged; in particular the pass is
idempotent on its own output whenever that output is Let-free. -/
theorem c10_let_free_identity (e : Expression) :
    (e.contains_let = false → e.replace_let_bindings = e) ∧
    (e.replace_let_bindings.contains_let = false →
      e.replace_let_bindings.replace_let_bindings =
        e.replace_let_bindings) :=
  ⟨Expression.replace_let_bindings_of_let_free e,
   Expression.replace_let_bindings_of_let_free e.replace_let_bindings⟩

/-- C10 (witness): the Let-free tree `Var(x) + 42` is unchanged by the
pass. -/
theorem c10_let_free_identity_witness :
    (Expression.BinOp .PLUS (.Var var_x) (.Const bv64_42)).contains_let
      = false ∧
    (Expression.BinOp .PLUS (.Var var_x)
        (.Const bv64_42)).replace_let_bindings =
      .BinOp .PLUS (.Var var_x) (.Const bv64_42) :=
  ⟨by decide, (c10_let_free_identity
    (.BinOp .PLUS (.Var var_x) (.Const bv64_42))).1 (by decide)⟩
